import Mathlib

/-!
Verification development for the tiny-slice state-container helper.

The library compiles a declarative map of named sync/async action handlers
into a reducer over the application state and a matching set of action
creators; async actions are executed through a thunk that dispatches
synthesized `name/pending`, `name/fulfilled`, `name/rejected` lifecycle
actions around a user-supplied asynchronous function.

We embed the JavaScript semantics shallowly:
  * JS objects live in an explicit heap (`Heap`) mapping addresses to field
    lists; object spread `{...state}` is a shallow copy at a fresh address,
    so nested references stay shared.
  * Handler callbacks are arbitrary heap mutators acting on the draft
    address, mirroring `(state, payload) => void` functions that mutate a
    draft in place.
  * The thunk's effectful run is embedded as a function from the outcome of
    the user async function (its helper-dispatched actions plus a resolved
    value or a thrown error) to the full ordered list of dispatched actions
    together with the value returned (or error re-thrown) to the caller.
-/

namespace TinySlice

/-- JavaScript-style runtime values: primitives plus object references. -/
inductive Val where
  | null
  | num (n : Int)
  | str (s : String)
  | ref (a : Nat)
deriving DecidableEq, Repr

/-- A JS object: an ordered list of named fields. -/
abbrev Obj := List (String × Val)

/-- A heap of objects addressed by natural numbers. `set` conses a new
binding that shadows older ones, so lookups see the latest write. -/
structure Heap where
  objs : List (Nat × Obj)
deriving DecidableEq, Repr

def Heap.get (h : Heap) (a : Nat) : Option Obj :=
  (h.objs.find? (fun p => p.1 == a)).map (fun p => p.2)

/-- The object at `a`, defaulting to the empty object. -/
def Heap.getObj (h : Heap) (a : Nat) : Obj :=
  (h.get a).getD []

def Heap.set (h : Heap) (a : Nat) (o : Obj) : Heap :=
  ⟨(a, o) :: h.objs⟩

/-- A fresh address: one past the largest address ever bound. -/
def Heap.fresh (h : Heap) : Nat :=
  (h.objs.map (fun p => p.1)).foldr (fun p q => max p q) 0 + 1

/-- Field lookup on an object (JS property read). -/
def getField (o : Obj) (k : String) : Option Val :=
  (o.find? (fun p => p.1 == k)).map (fun p => p.2)

/-- Field update on an object (JS property assignment on an existing field). -/
def objSetField (o : Obj) (k : String) (v : Val) : Obj :=
  o.map (fun p => if p.1 == k then (p.1, v) else p)

theorem Heap.get_set_ne (h : Heap) (a b : Nat) (o : Obj) (hne : b ≠ a) :
    (h.set b o).get a = h.get a := by
  unfold Heap.set Heap.get
  rw [List.find?_cons_of_neg]
  simpa using hne

theorem le_foldr_max (l : List Nat) (x : Nat) (hx : x ∈ l) :
    x ≤ l.foldr (fun p q => max p q) 0 := by
  induction l with
  | nil => cases hx
  | cons y ys ih =>
    rcases List.mem_cons.mp hx with h | h
    · subst h
      rw [List.foldr_cons]
      exact Nat.le_max_left _ _
    · exact le_trans (ih h) (Nat.le_max_right _ _)

theorem Heap.lt_fresh_of_get_some (h : Heap) (a : Nat) (o : Obj)
    (hg : h.get a = some o) : a < h.fresh := by
  unfold Heap.get at hg
  rcases Option.map_eq_some'.mp hg with ⟨q, hfind, _⟩
  have hmem : q ∈ h.objs := List.mem_of_find?_eq_some hfind
  have hpred := List.find?_some hfind
  have hkey : q.1 = a := by simpa using hpred
  have hamem : a ∈ h.objs.map (fun p => p.1) :=
    hkey ▸ List.mem_map_of_mem (fun p => p.1) hmem
  exact Nat.lt_succ_of_le (le_foldr_max _ a hamem)

theorem Heap.fresh_ne (h : Heap) (a : Nat) (o : Obj)
    (hg : h.get a = some o) : h.fresh ≠ a :=
  (Heap.lt_fresh_of_get_some h a o hg).ne'

/-! ## Splitting action types

The reducer executes `const [actionType, status] = action.type.split('/')`:
JavaScript splits on every `/` and destructuring takes elements 0 and 1.
`jsSplitSlash` reproduces `split('/')` on the character list. -/

def jsSplitSlash : List Char → List (List Char)
  | [] => [[]]
  | c :: cs =>
    if c = '/' then [] :: jsSplitSlash cs
    else (c :: (jsSplitSlash cs).headD []) :: (jsSplitSlash cs).tail

theorem jsSplitSlash_ne_nil (cs : List Char) : jsSplitSlash cs ≠ [] := by
  cases cs with
  | nil => simp [jsSplitSlash]
  | cons c cs => unfold jsSplitSlash; split <;> simp

/-- `[actionType, status] = action.type.split('/')`: the name before the
first slash and, when present, the chunk after it (element 1 of the split,
i.e. `undefined` becomes `none`). -/
def parseActionType (t : String) : String × Option String :=
  let parts := jsSplitSlash t.data
  (String.mk (parts.headD []), (parts.get? 1).map String.mk)

/-- The characters strictly before the first `/` (all of them when no slash
occurs). -/
def beforeSlashAux : List Char → List Char
  | [] => []
  | c :: cs => if c = '/' then [] else c :: beforeSlashAux cs

/-- The characters after the first `/` to the end, when a slash occurs. -/
def afterSlashAux : List Char → Option (List Char)
  | [] => none
  | c :: cs => if c = '/' then some cs else afterSlashAux cs

/-- The substring of `t` strictly before the first `/` (all of `t` when no
slash occurs). -/
def beforeFirstSlash (t : String) : String :=
  String.mk (beforeSlashAux t.data)

/-- The entire remainder of `t` after the first `/`, when a slash occurs.
This is the claim's reading of `status`. -/
def remainderAfterFirstSlash (t : String) : Option String :=
  (afterSlashAux t.data).map String.mk

/-- The chunk of `t` between the first and second `/` (running to the end
when no second slash occurs), when a first slash occurs at all. -/
def secondChunk (t : String) : Option String :=
  (afterSlashAux t.data).map (fun r => String.mk (beforeSlashAux r))

theorem jsSplitSlash_head? (cs : List Char) :
    (jsSplitSlash cs).head? = some (beforeSlashAux cs) := by
  induction cs with
  | nil => rfl
  | cons c cs ih =>
    by_cases hc : c = '/'
    · simp [jsSplitSlash, beforeSlashAux, hc]
    · rcases hsplit : jsSplitSlash cs with _ | ⟨h1, t1⟩
      · exact absurd hsplit (jsSplitSlash_ne_nil cs)
      · rw [hsplit] at ih
        simp only [List.head?] at ih
        have h1eq : h1 = beforeSlashAux cs := by simpa using ih
        simp [jsSplitSlash, beforeSlashAux, hc, hsplit, h1eq]

theorem get?_one_eq_tail_head? (l : List (List Char)) :
    l.get? 1 = l.tail.head? := by
  cases l with
  | nil => rfl
  | cons x xs => cases xs <;> rfl

theorem jsSplitSlash_get1 (cs : List Char) :
    (jsSplitSlash cs).get? 1 = (afterSlashAux cs).map beforeSlashAux := by
  induction cs with
  | nil => rfl
  | cons c cs ih =>
    by_cases hc : c = '/'
    · rw [get?_one_eq_tail_head?]
      simp [jsSplitSlash, afterSlashAux, hc, jsSplitSlash_head? cs]
    · rcases hsplit : jsSplitSlash cs with _ | ⟨h1, t1⟩
      · exact absurd hsplit (jsSplitSlash_ne_nil cs)
      · rw [hsplit] at ih
        rw [get?_one_eq_tail_head?] at ih ⊢
        simp only [jsSplitSlash, if_neg hc, hsplit, afterSlashAux]
        simpa using ih

theorem parseActionType_fst (t : String) :
    (parseActionType t).1 = beforeFirstSlash t := by
  have h := jsSplitSlash_head? t.data
  simp [parseActionType, beforeFirstSlash, List.headD_eq_head?, h]

theorem parseActionType_snd (t : String) :
    (parseActionType t).2 = secondChunk t := by
  simp only [parseActionType, secondChunk, jsSplitSlash_get1]
  cases afterSlashAux t.data <;> rfl

/-! ## Handlers and the reducer

An `AsyncActionReducer` is the descriptor built by `createAsyncAction`:
the user async function itself is arbitrary user code, so its behaviour is
supplied per invocation as an outcome (see `runThunk`); the descriptor keeps
the three optional lifecycle callbacks. Callbacks are heap mutators acting
on the draft address, mirroring in-place mutation of the draft object. -/

structure AsyncActionReducer where
  onPending : Option (Heap → Nat → Heap)
  onSuccess : Option (Heap → Nat → Val → Heap)
  onError : Option (Heap → Nat → Val → Heap)

/-- An entry of `options.actions`: either a plain sync handler function or
an async descriptor. The code discriminates via `'action' in actionReducer`;
the shallow embedding keeps the same two shapes as a tagged union. -/
inductive Handler where
  | sync (f : Heap → Nat → Val → Heap)
  | async (d : AsyncActionReducer)

/-- `options.actions[actionType]`: lookup in the registered handler map. -/
def lookupAction (acts : List (String × Handler)) (k : String) : Option Handler :=
  (acts.find? (fun p => p.1 == k)).map (fun p => p.2)

/-- A dispatched plain action as seen by the reducer. -/
structure ActionIn where
  type : String
  payload : Val
deriving DecidableEq, Repr

/-- The reducer produced by `createTinySlice`, acting on a state that is the
object at address `a` in `heap`. Mirrors the source line by line: split the
type, look the handler up under the part before the first slash; async
handlers switch on the status chunk and shallow-copy the state only when the
corresponding callback exists; sync handlers always shallow-copy and run
the handler on the copy; otherwise the state is returned unchanged. -/
def reducer (acts : List (String × Handler)) (heap : Heap) (a : Nat)
    (act : ActionIn) : Heap × Nat :=
  let p := parseActionType act.type
  match lookupAction acts p.1 with
  | some (Handler.async d) =>
    if p.2 = some "pending" then
      match d.onPending with
      | some f => (f (heap.set heap.fresh (heap.getObj a)) heap.fresh, heap.fresh)
      | none => (heap, a)
    else if p.2 = some "fulfilled" then
      match d.onSuccess with
      | some f => (f (heap.set heap.fresh (heap.getObj a)) heap.fresh act.payload, heap.fresh)
      | none => (heap, a)
    else if p.2 = some "rejected" then
      match d.onError with
      | some f => (f (heap.set heap.fresh (heap.getObj a)) heap.fresh act.payload, heap.fresh)
      | none => (heap, a)
    else (heap, a)
  | some (Handler.sync f) =>
    (f (heap.set heap.fresh (heap.getObj a)) heap.fresh act.payload, heap.fresh)
  | none => (heap, a)

/-! ## The thunk's dispatch trace

Async action creators embed a thunk `(dispatch, getState) => Promise`.  Its
effect is modelled as a function of the user async function's outcome: the
list of actions the user function dispatched through its helpers, plus
either a resolved value or a thrown error (`Except.error`).  The thunk
returns the ordered list of all dispatches it performs and the value it
returns (or the error it re-throws) to the caller. -/

/-- A payload dispatched by the thunk: `null` for pending, the resolved
value for fulfilled, or the `{ error }` wrapper object for rejected. -/
inductive DPayload where
  | null
  | ofVal (v : Val)
  | errorObj (e : String)
deriving DecidableEq, Repr

/-- One action dispatched during a thunk run. -/
structure Dispatched where
  type : String
  payload : DPayload
deriving DecidableEq, Repr

def mkPendingAction (name : String) : Dispatched :=
  ⟨name ++ "/pending", DPayload.null⟩

def mkFulfilledAction (name : String) (r : Val) : Dispatched :=
  ⟨name ++ "/fulfilled", DPayload.ofVal r⟩

def mkRejectedAction (name : String) (e : String) : Dispatched :=
  ⟨name ++ "/rejected", DPayload.errorObj e⟩

/-- The thunk embedded in an async action creator. `outcome` is the
behaviour of `actionReducer.action(payload, {getState, dispatch})`: the
actions it dispatched through the helper and its resolution (`Except.ok`)
or thrown error (`Except.error`). The trace lists every dispatch in order;
the second component is what the thunk returns or re-throws. -/
def runThunk (d : AsyncActionReducer) (name : String) (payload : Val)
    (outcome : List Dispatched × Except String Val) :
    List Dispatched × Except String Val :=
  let pendPart := if d.onPending.isSome then [mkPendingAction name] else []
  match outcome with
  | (ds, Except.ok r) =>
    let fulPart := if d.onSuccess.isSome then [mkFulfilledAction name r] else []
    (pendPart ++ ds ++ fulPart, Except.ok r)
  | (ds, Except.error e) =>
    let rejPart := if d.onError.isSome then [mkRejectedAction name e] else []
    (pendPart ++ ds ++ rejPart, Except.error e)

/-- The synthesized terminal action of one thunk invocation, when one is
dispatched at all: `fulfilled` on resolution with `onSuccess` configured,
`rejected` on a thrown error with `onError` configured. -/
def terminalOf (d : AsyncActionReducer) (name : String)
    (oc : Except String Val) : Option Dispatched :=
  match oc with
  | Except.ok r => if d.onSuccess.isSome then some (mkFulfilledAction name r) else none
  | Except.error e => if d.onError.isSome then some (mkRejectedAction name e) else none

/-! ## Action creators -/

/-- The object returned by calling an action creator: a plain descriptor.
Sync entries carry `async := false` and no thunk; async entries carry
`async := true` and the embedded thunk. -/
structure CreatedAction where
  type : String
  payload : Val
  async : Bool
  thunk : Option (List Dispatched × Except String Val → List Dispatched × Except String Val)

/-- The action creator generated for registered key `key` (none when the
key is unregistered: creators are generated only for `Object.keys` of the
handler map), applied to `payload`. -/
def createAction (acts : List (String × Handler)) (key : String)
    (payload : Val) : Option CreatedAction :=
  match lookupAction acts key with
  | some (Handler.async d) =>
    some ⟨key, payload, true, some (runThunk d key payload)⟩
  | some (Handler.sync _) => some ⟨key, payload, false, none⟩
  | none => none

/-- Calling a creator threaded through the dispatch log: the creator body
contains no dispatch, so the log passes through untouched. This is the
effect-explicit embedding used to state that invoking a creator performs
no dispatch. -/
def createActionCall (acts : List (String × Handler)) (key : String)
    (payload : Val) (log : List Dispatched) :
    Option CreatedAction × List Dispatched :=
  (createAction acts key payload, log)

/-! ## Concrete handlers and fixtures used by witnesses -/

/-- A sync handler mutating the draft in place: `state.count = payload`. -/
def incHandler : Heap → Nat → Val → Heap := fun h a p =>
  h.set a (objSetField (h.getObj a) "count" p)

/-- An `onPending` callback: `state.loading = 1`. -/
def pendingSetter : Heap → Nat → Heap := fun h a =>
  h.set a (objSetField (h.getObj a) "loading" (Val.num 1))

/-- An `onSuccess` callback: `state.value = payload`. -/
def successSetter : Heap → Nat → Val → Heap := fun h a v =>
  h.set a (objSetField (h.getObj a) "value" v)

/-- An `onError` callback: `state.error = payload`. -/
def errorSetter : Heap → Nat → Val → Heap := fun h a v =>
  h.set a (objSetField (h.getObj a) "error" v)

/-- A heap holding one state object `{count: 0}` at address 1. -/
def heapW : Heap := ⟨[(1, [("count", Val.num 0)])]⟩

/-- An async descriptor with only `onPending` configured. -/
def descPendingOnly : AsyncActionReducer := ⟨some pendingSetter, none, none⟩

/-- An async descriptor with no lifecycle callback configured. -/
def descNoCallbacks : AsyncActionReducer := ⟨none, none, none⟩

/-- An async descriptor with `onSuccess` and `onError` configured. -/
def descSuccessError : AsyncActionReducer := ⟨none, some successSetter, some errorSetter⟩

/-- An async descriptor with all three lifecycle callbacks configured. -/
def descFull : AsyncActionReducer := ⟨some pendingSetter, some successSetter, some errorSetter⟩

/-- A sync handler that mutates a nested object through the draft:
`draft.inner.x = 1` (reads the `inner` reference, then writes through it). -/
def nestedMutator : Heap → Nat → Val → Heap := fun h a _ =>
  match getField (h.getObj a) "inner" with
  | some (Val.ref b) => h.set b (objSetField (h.getObj b) "x" (Val.num 1))
  | _ => h

/-- A heap with a state object `{inner: <ref 2>}` at address 1 and the
nested object `{x: 0}` at address 2. -/
def heapNested : Heap := ⟨[(1, [("inner", Val.ref 2)]), (2, [("x", Val.num 0)])]⟩

def actsNested : List (String × Handler) := [("m", Handler.sync nestedMutator)]

/-! ## Claim theorems -/

/-- C1: for every state object, payload and registered sync handler, an
action whose looked-up handler is sync-shaped makes the reducer shallow-copy
the state to a fresh address, invoke the handler with the draft copy and the
action's payload, and return the draft: the returned address is distinct
from the input address, and the reducer's own copy step leaves the input
state object untouched. -/
theorem reducer_sync_shallow_copy
    (acts : List (String × Handler)) (heap : Heap) (a : Nat) (act : ActionIn)
    (f : Heap → Nat → Val → Heap) (obj : Obj)
    (hl : lookupAction acts (parseActionType act.type).1 = some (Handler.sync f))
    (hobj : heap.get a = some obj) :
    reducer acts heap a act
        = (f (heap.set heap.fresh obj) heap.fresh act.payload, heap.fresh)
      ∧ heap.fresh ≠ a
      ∧ (heap.set heap.fresh obj).get a = heap.get a := by
  refine ⟨?_, Heap.fresh_ne heap a obj hobj,
    Heap.get_set_ne heap a heap.fresh obj (Heap.fresh_ne heap a obj hobj)⟩
  simp [reducer, hl, Heap.getObj, hobj]

theorem reducer_sync_shallow_copy_witness :
    reducer [("inc", Handler.sync incHandler)] heapW 1 ⟨"inc", Val.num 2⟩
        = (incHandler (heapW.set heapW.fresh [("count", Val.num 0)]) heapW.fresh (Val.num 2),
            heapW.fresh)
      ∧ heapW.fresh ≠ 1
      ∧ (heapW.set heapW.fresh [("count", Val.num 0)]).get 1 = heapW.get 1 :=
  reducer_sync_shallow_copy [("inc", Handler.sync incHandler)] heapW 1 ⟨"inc", Val.num 2⟩
    incHandler [("count", Val.num 0)] (by rfl) (by rfl)

/-- C2: an action whose type's part before the first `/` matches no
registered action name makes the reducer return the exact state it was
given — same heap, same address, no handler invoked. -/
theorem reducer_unknown_type_identity
    (acts : List (String × Handler)) (heap : Heap) (a : Nat) (act : ActionIn)
    (hl : lookupAction acts (beforeFirstSlash act.type) = none) :
    reducer acts heap a act = (heap, a) := by
  have h1 : lookupAction acts (parseActionType act.type).1 = none := by
    rw [parseActionType_fst]
    exact hl
  simp [reducer, h1]

theorem reducer_unknown_type_identity_witness :
    reducer [("inc", Handler.sync incHandler)] heapW 1 ⟨"dec", Val.null⟩ = (heapW, 1) :=
  reducer_unknown_type_identity [("inc", Handler.sync incHandler)] heapW 1
    ⟨"dec", Val.null⟩ (by rfl)

/-- C5: with an async-shaped looked-up handler the reducer dispatches on the
status chunk: `pending` runs `onPending` on a shallow copy at a fresh
address, `fulfilled` runs `onSuccess` with the action's payload on a copy,
`rejected` runs `onError` with the action's payload on a copy; and for any
other or missing status, or a missing corresponding callback, the reducer
returns the exact state it was given (no copy is made). -/
theorem reducer_async_status_dispatch
    (acts : List (String × Handler)) (heap : Heap) (a : Nat) (act : ActionIn)
    (d : AsyncActionReducer) (obj : Obj)
    (hl : lookupAction acts (parseActionType act.type).1 = some (Handler.async d))
    (hobj : heap.get a = some obj) :
    ((parseActionType act.type).2 = some "pending" →
      reducer acts heap a act =
        match d.onPending with
        | some f => (f (heap.set heap.fresh obj) heap.fresh, heap.fresh)
        | none => (heap, a))
    ∧ ((parseActionType act.type).2 = some "fulfilled" →
      reducer acts heap a act =
        match d.onSuccess with
        | some f => (f (heap.set heap.fresh obj) heap.fresh act.payload, heap.fresh)
        | none => (heap, a))
    ∧ ((parseActionType act.type).2 = some "rejected" →
      reducer acts heap a act =
        match d.onError with
        | some f => (f (heap.set heap.fresh obj) heap.fresh act.payload, heap.fresh)
        | none => (heap, a))
    ∧ ((parseActionType act.type).2 ≠ some "pending" →
        (parseActionType act.type).2 ≠ some "fulfilled" →
        (parseActionType act.type).2 ≠ some "rejected" →
        reducer acts heap a act = (heap, a)) := by
  refine ⟨?_, ?_, ?_, ?_⟩
  · intro hst
    cases honp : d.onPending <;>
      simp [reducer, hl, hst, honp, Heap.getObj, hobj]
  · intro hst
    cases hons : d.onSuccess <;>
      simp [reducer, hl, hst, hons, Heap.getObj, hobj]
  · intro hst
    cases hone : d.onError <;>
      simp [reducer, hl, hst, hone, Heap.getObj, hobj]
  · intro h1 h2 h3
    simp [reducer, hl, h1, h2, h3]

theorem reducer_async_status_dispatch_witness :
    ((parseActionType "fetch/pending").2 = some "pending" →
      reducer [("fetch", Handler.async descPendingOnly)] heapW 1 ⟨"fetch/pending", Val.null⟩ =
        match descPendingOnly.onPending with
        | some f => (f (heapW.set heapW.fresh [("count", Val.num 0)]) heapW.fresh, heapW.fresh)
        | none => (heapW, 1))
    ∧ ((parseActionType "fetch/pending").2 = some "fulfilled" →
      reducer [("fetch", Handler.async descPendingOnly)] heapW 1 ⟨"fetch/pending", Val.null⟩ =
        match descPendingOnly.onSuccess with
        | some f => (f (heapW.set heapW.fresh [("count", Val.num 0)]) heapW.fresh Val.null, heapW.fresh)
        | none => (heapW, 1))
    ∧ ((parseActionType "fetch/pending").2 = some "rejected" →
      reducer [("fetch", Handler.async descPendingOnly)] heapW 1 ⟨"fetch/pending", Val.null⟩ =
        match descPendingOnly.onError with
        | some f => (f (heapW.set heapW.fresh [("count", Val.num 0)]) heapW.fresh Val.null, heapW.fresh)
        | none => (heapW, 1))
    ∧ ((parseActionType "fetch/pending").2 ≠ some "pending" →
        (parseActionType "fetch/pending").2 ≠ some "fulfilled" →
        (parseActionType "fetch/pending").2 ≠ some "rejected" →
        reducer [("fetch", Handler.async descPendingOnly)] heapW 1 ⟨"fetch/pending", Val.null⟩ =
          (heapW, 1)) :=
  reducer_async_status_dispatch [("fetch", Handler.async descPendingOnly)] heapW 1
    ⟨"fetch/pending", Val.null⟩ descPendingOnly [("count", Val.num 0)] (by rfl) (by rfl)

/-- C7 counterexample: on the type `"a/b/c"` the reducer's destructured
split yields status `"b"` — the chunk between the first and second slash —
not the entire remainder `"b/c"` after the first slash, refuting the claim
that status is the entire remainder. -/
theorem parse_status_remainder_cex :
    parseActionType "a/b/c" = ("a", some "b")
    ∧ remainderAfterFirstSlash "a/b/c" = some "b/c"
    ∧ (parseActionType "a/b/c").2 ≠ remainderAfterFirstSlash "a/b/c" := by
  decide

/-- C7 amended: for every action type, the reducer's destructured split
yields the substring before the first `/` as the action name, and as status
the chunk between the first and the second `/` (missing when the type holds
no slash at all). -/
theorem parseActionType_chunks (t : String) :
    parseActionType t = (beforeFirstSlash t, secondChunk t) := by
  rw [← parseActionType_fst, ← parseActionType_snd]

/-- C9: the reducer's copy-on-write is only one level deep. Concretely: the
state `{inner: {x: 0}}` and a sync handler performing `draft.inner.x = 1`
yield a post-dispatch heap in which the pre-dispatch state reference still
reaches the same nested object, whose field `x` now reads 1 — only
top-level fields of the previous state are protected. -/
theorem reducer_nested_mutation_leak :
    (reducer actsNested heapNested 1 ⟨"m", Val.null⟩).2 ≠ 1
    ∧ getField (heapNested.getObj 2) "x" = some (Val.num 0)
    ∧ getField ((reducer actsNested heapNested 1 ⟨"m", Val.null⟩).1.getObj 1) "inner"
        = some (Val.ref 2)
    ∧ getField ((reducer actsNested heapNested 1 ⟨"m", Val.null⟩).1.getObj 2) "x"
        = some (Val.num 1) := by
  decide

/-- C10: a sync action registered under a name containing `/`, when nothing
is registered under the name's part before the first `/`, is dead: the
creator emits the full name as the type, the reducer looks up only the part
before the first slash, finds nothing, and returns the input state
unchanged without invoking the registered handler. -/
theorem slash_name_sync_action_noop
    (acts : List (String × Handler)) (name : String) (payload : Val)
    (heap : Heap) (a : Nat) (f : Heap → Nat → Val → Heap) (c : CreatedAction)
    (hslash : '/' ∈ name.data)
    (hreg : lookupAction acts name = some (Handler.sync f))
    (hpre : lookupAction acts (beforeFirstSlash name) = none)
    (hc : createAction acts name payload = some c) :
    c.type = name ∧ reducer acts heap a ⟨c.type, c.payload⟩ = (heap, a) := by
  have hcval : c = ⟨name, payload, false, none⟩ := by
    rw [createAction, hreg] at hc
    exact (Option.some.inj hc).symm
  subst hcval
  refine ⟨rfl, ?_⟩
  have h1 : lookupAction acts (parseActionType name).1 = none := by
    rw [parseActionType_fst]
    exact hpre
  simp [reducer, h1]

theorem slash_name_sync_action_noop_witness :
    CreatedAction.type ⟨"a/b", Val.num 7, false, none⟩ = "a/b"
    ∧ reducer [("a/b", Handler.sync incHandler)] heapW 1
        ⟨CreatedAction.type ⟨"a/b", Val.num 7, false, none⟩,
          CreatedAction.payload ⟨"a/b", Val.num 7, false, none⟩⟩ = (heapW, 1) :=
  slash_name_sync_action_noop [("a/b", Handler.sync incHandler)] "a/b" (Val.num 7)
    heapW 1 incHandler ⟨"a/b", Val.num 7, false, none⟩
    (by decide) (by rfl) (by rfl) (by rfl)

/-- C3 counterexample: an async descriptor with no `onSuccess` configured
dispatches no `fulfilled` action even though its async function resolved —
the thunk guards the fulfilled dispatch behind `onSuccess`, refuting the
claim that every resolving invocation dispatches `<name>/fulfilled`. The
result is still returned to the caller. -/
theorem thunk_fulfilled_unconditional_cex :
    (runThunk descNoCallbacks "fetch" Val.null ([], Except.ok (Val.num 5))).1 = []
    ∧ mkFulfilledAction "fetch" (Val.num 5)
        ∉ (runThunk descNoCallbacks "fetch" Val.null ([], Except.ok (Val.num 5))).1
    ∧ (runThunk descNoCallbacks "fetch" Val.null ([], Except.ok (Val.num 5))).2
        = Except.ok (Val.num 5) := by
  exact ⟨rfl, List.not_mem_nil _, rfl⟩

/-- C3 amended: when the thunk's async function resolves with a result, the
synthesized `<name>/fulfilled` action carrying the result is dispatched if
and only if `onSuccess` is configured, and in every case the result is
returned to the caller of the invocation. -/
theorem thunk_fulfilled_iff_onSuccess
    (d : AsyncActionReducer) (name : String) (payload : Val)
    (ds : List Dispatched) (r : Val)
    (hds : mkFulfilledAction name r ∉ ds) :
    (runThunk d name payload (ds, Except.ok r)).2 = Except.ok r
    ∧ (mkFulfilledAction name r ∈ (runThunk d name payload (ds, Except.ok r)).1
        ↔ d.onSuccess.isSome) := by
  have hds' : ({ type := name ++ "/fulfilled", payload := DPayload.ofVal r } : Dispatched)
      ∉ ds := hds
  constructor
  · simp [runThunk]
  · by_cases hs : d.onSuccess.isSome <;> by_cases hp : d.onPending.isSome <;>
      simp [runThunk, hs, hp, hds', mkPendingAction, mkFulfilledAction]

theorem thunk_fulfilled_iff_onSuccess_witness :
    mkFulfilledAction "fetch" (Val.num 5) ∉ ([] : List Dispatched)
    ∧ ((runThunk descSuccessError "fetch" Val.null ([], Except.ok (Val.num 5))).2
          = Except.ok (Val.num 5)
        ∧ (mkFulfilledAction "fetch" (Val.num 5)
              ∈ (runThunk descSuccessError "fetch" Val.null ([], Except.ok (Val.num 5))).1
            ↔ descSuccessError.onSuccess.isSome)) :=
  ⟨by decide,
    thunk_fulfilled_iff_onSuccess descSuccessError "fetch" Val.null [] (Val.num 5) (by decide)⟩

/-- C4: when the thunk's async function throws, the synthesized
`<name>/rejected` action carrying the `{ error }` wrapper is dispatched if
and only if `onError` is configured, and in every case the original error
is re-thrown to the caller of the invocation — never swallowed. -/
theorem thunk_rejected_iff_onError_and_rethrow
    (d : AsyncActionReducer) (name : String) (payload : Val)
    (ds : List Dispatched) (e : String)
    (hds : mkRejectedAction name e ∉ ds) :
    (runThunk d name payload (ds, Except.error e)).2 = Except.error e
    ∧ (mkRejectedAction name e ∈ (runThunk d name payload (ds, Except.error e)).1
        ↔ d.onError.isSome) := by
  have hds' : ({ type := name ++ "/rejected", payload := DPayload.errorObj e } : Dispatched)
      ∉ ds := hds
  constructor
  · simp [runThunk]
  · by_cases he : d.onError.isSome <;> by_cases hp : d.onPending.isSome <;>
      simp [runThunk, he, hp, hds', mkPendingAction, mkRejectedAction]

theorem thunk_rejected_iff_onError_and_rethrow_witness :
    mkRejectedAction "fetch" "boom" ∉ ([] : List Dispatched)
    ∧ ((runThunk descFull "fetch" Val.null ([], Except.error "boom")).2
          = Except.error "boom"
        ∧ (mkRejectedAction "fetch" "boom"
              ∈ (runThunk descFull "fetch" Val.null ([], Except.error "boom")).1
            ↔ descFull.onError.isSome)) :=
  ⟨by decide,
    thunk_rejected_iff_onError_and_rethrow descFull "fetch" Val.null [] "boom" (by decide)⟩

/-- C6: within one thunk invocation the synthesized `<name>/pending` action
is dispatched if and only if `onPending` is configured, and when dispatched
it is the very first dispatch of the invocation, hence strictly before the
invocation's synthesized terminal `fulfilled`/`rejected` dispatch, which
lands in the remainder of the trace. -/
theorem thunk_pending_iff_and_first
    (d : AsyncActionReducer) (name : String) (payload : Val)
    (ds : List Dispatched) (oc : Except String Val)
    (hds : mkPendingAction name ∉ ds) :
    (mkPendingAction name ∈ (runThunk d name payload (ds, oc)).1 ↔ d.onPending.isSome)
    ∧ (d.onPending.isSome →
        ∃ rest, (runThunk d name payload (ds, oc)).1 = mkPendingAction name :: rest
          ∧ ∀ t, terminalOf d name oc = some t → t ∈ rest) := by
  have hds' : ({ type := name ++ "/pending", payload := DPayload.null } : Dispatched)
      ∉ ds := hds
  constructor
  · cases oc with
    | ok r =>
      by_cases hp : d.onPending.isSome <;> by_cases hs : d.onSuccess.isSome <;>
        simp [runThunk, hp, hs, hds', mkPendingAction, mkFulfilledAction]
    | error e =>
      by_cases hp : d.onPending.isSome <;> by_cases he : d.onError.isSome <;>
        simp [runThunk, hp, he, hds', mkPendingAction, mkRejectedAction]
  · intro hp
    cases oc with
    | ok r =>
      refine ⟨ds ++ (if d.onSuccess.isSome then [mkFulfilledAction name r] else []), ?_, ?_⟩
      · simp [runThunk, hp]
      · intro t ht
        by_cases hs : d.onSuccess.isSome <;> simp [terminalOf, hs] at ht
        simp [ht, hs]
    | error e =>
      refine ⟨ds ++ (if d.onError.isSome then [mkRejectedAction name e] else []), ?_, ?_⟩
      · simp [runThunk, hp]
      · intro t ht
        by_cases he : d.onError.isSome <;> simp [terminalOf, he] at ht
        simp [ht, he]

theorem thunk_pending_iff_and_first_witness :
    mkPendingAction "fetch" ∉ ([] : List Dispatched)
    ∧ ((mkPendingAction "fetch"
            ∈ (runThunk descFull "fetch" Val.null ([], Except.ok (Val.num 5))).1
          ↔ descFull.onPending.isSome)
        ∧ (descFull.onPending.isSome →
            ∃ rest, (runThunk descFull "fetch" Val.null ([], Except.ok (Val.num 5))).1
                = mkPendingAction "fetch" :: rest
              ∧ ∀ t, terminalOf descFull "fetch" (Except.ok (Val.num 5)) = some t →
                  t ∈ rest)) :=
  ⟨by decide,
    thunk_pending_iff_and_first descFull "fetch" Val.null [] (Except.ok (Val.num 5))
      (by decide)⟩

/-- C8: calling the action creator of a registered name returns a plain
descriptor object — type equal to the registered name, the given payload,
`async := false` with no thunk for sync entries, `async := true` with the
embedded thunk for async entries — and leaves the dispatch log exactly as
it was: no dispatch or other side effect happens as a consequence of the
call itself. -/
theorem createAction_plain_descriptor
    (acts : List (String × Handler)) (key : String) (payload : Val)
    (h : Handler) (log : List Dispatched)
    (hl : lookupAction acts key = some h) :
    (createActionCall acts key payload log).2 = log
    ∧ ∃ c, (createActionCall acts key payload log).1 = some c
        ∧ c.type = key ∧ c.payload = payload
        ∧ (∀ f, h = Handler.sync f → c.async = false ∧ c.thunk = none)
        ∧ (∀ d, h = Handler.async d →
            c.async = true ∧ c.thunk = some (runThunk d key payload)) := by
  refine ⟨rfl, ?_⟩
  cases h with
  | sync f =>
    refine ⟨⟨key, payload, false, none⟩, ?_, rfl, rfl, ?_, ?_⟩
    · simp [createActionCall, createAction, hl]
    · intro f' _
      exact ⟨rfl, rfl⟩
    · intro d hd
      exact Handler.noConfusion hd
  | async d =>
    refine ⟨⟨key, payload, true, some (runThunk d key payload)⟩, ?_, rfl, rfl, ?_, ?_⟩
    · simp [createActionCall, createAction, hl]
    · intro f hf
      exact Handler.noConfusion hf
    · intro d' hd
      cases hd
      exact ⟨rfl, rfl⟩

theorem createAction_plain_descriptor_witness :
    (createActionCall [("inc", Handler.sync incHandler)] "inc" (Val.num 3) []).2 = []
    ∧ ∃ c, (createActionCall [("inc", Handler.sync incHandler)] "inc" (Val.num 3) []).1
          = some c
        ∧ c.type = "inc" ∧ c.payload = Val.num 3
        ∧ (∀ f, Handler.sync incHandler = Handler.sync f →
            c.async = false ∧ c.thunk = none)
        ∧ (∀ d, Handler.sync incHandler = Handler.async d →
            c.async = true ∧ c.thunk = some (runThunk d "inc" (Val.num 3))) :=
  createAction_plain_descriptor [("inc", Handler.sync incHandler)] "inc" (Val.num 3)
    (Handler.sync incHandler) [] (by rfl)

end TinySlice
